import Mathlib

/-!
Verification development for the `dayswithout` Telegram bot (`main.go`).

The embedding models the three core components of the program:

* the keyword matcher (`buildKeywordRegex` / `findKeyword`): the Go code
  builds one case-insensitive regular expression
  `(?i)(?:^|[^\p{L}\p{N}_])(alt1|alt2|...)(?:$|[^\p{L}\p{N}_])` where each
  alternative is `regexp.QuoteMeta(word)` (with the program's
  backslash-space to `\s+` rewriting pass) followed by `[\p{L}\p{N}_]*`
  unless the word is listed in `no_suffix`.  We embed the exact string
  pipeline (`QuoteMeta`, the `\\ +` -> `\s+` replacement, the lexing of the
  produced pattern fragment) and give the generated pattern its regular
  expression semantics directly as a scanning function over the text.
  Character classes: Go's `[\p{L}\p{N}_]` and the case folding of `(?i)`
  are modelled on their ASCII fragment (`Char.isAlpha`, `Char.isDigit`,
  `Char.toLower`), which covers every behaviour the claims exercise;
  `\s` is RE2's exact `[\t\n\f\r ]`.

* the cooldown / counter policy (the `OnText`, `/reset` and `/days`
  handlers): instants are modelled as integer nanoseconds since the epoch,
  exactly the representation of Go's `time.Duration` arithmetic
  (`time.Since(t) = now - t` in nanoseconds).  Go's
  `int(d.Hours() / 24)` is modelled in exact rational arithmetic
  (`float64` rounding is idealised away): `Hours()` divides the
  nanosecond count by 3.6e12, and `int(...)` truncates toward zero.

* the storage layer (`saveStorage` / `loadStorage`): the persisted file is
  the exact `json.MarshalIndent` output for the `Storage` struct, whose
  single field is a `time.Time` encoded in RFC 3339 form.  The wall-clock
  instant is modelled at second precision (the sub-second digits of
  RFC 3339 do not affect any claim, all of which are stated at second
  precision or coarser); field range validation performed by Go's
  `time.Parse` is omitted because only files this encoder wrote are read
  back.  The file system is modelled as an explicit `Option String`
  threaded through the handlers, and the fallibility of `os.WriteFile`
  as an explicit boolean oracle.
-/

namespace DaysWithout

/-! ## Character classes of the generated pattern -/

/-- Character class `[\p{L}\p{N}_]` of the generated pattern (the word
characters used by the left/right boundary assertions and the suffix
class), on its ASCII fragment. -/
def isWordChar (c : Char) : Bool := c.isAlpha || c.isDigit || c == '_'

/-- RE2's `\s` class: exactly `[\t\n\f\r ]`. -/
def isGoSpace (c : Char) : Bool :=
  c == '\t' || c == '\n' || c == '\x0c' || c == '\r' || c == ' '

/-- Case-insensitive character comparison, modelling `(?i)` on ASCII. -/
def ciEq (a b : Char) : Bool := a.toLower == b.toLower

/-- The whitespace set of Go's `strings.TrimSpace` (ASCII fragment of
Unicode `White_Space`). -/
def isTrimSpace (c : Char) : Bool :=
  c == ' ' || c == '\t' || c == '\n' || c == '\x0b' || c == '\x0c' || c == '\r'

/-- Model of `strings.TrimSpace`. -/
def trimChars (l : List Char) : List Char :=
  ((l.dropWhile isTrimSpace).reverse.dropWhile isTrimSpace).reverse

/-- Model of `strings.ToLower` (ASCII fragment). -/
def lowerChars (l : List Char) : List Char := l.map Char.toLower

/-! ## `regexp.QuoteMeta` and the backslash-space rewriting pass -/

/-- The metacharacters escaped by Go's `regexp.QuoteMeta`
(from Go's `regexp` package: `\.+*?()|[]\x7b\x7d^$`).  Note that the
space character is NOT in this set. -/
def goSpecial (c : Char) : Bool :=
  c == '\\' || c == '.' || c == '+' || c == '*' || c == '?' || c == '(' ||
  c == ')' || c == '|' || c == '[' || c == ']' || c == '\x7b' ||
  c == '\x7d' || c == '^' || c == '$'

/-- Model of `regexp.QuoteMeta`: prefix every metacharacter with a
backslash. -/
def quoteMetaList : List Char → List Char
  | [] => []
  | c :: rest => (if goSpecial c then ['\\', c] else [c]) ++ quoteMetaList rest

/-- Model of
`regexp.MustCompile(` followed by raw `\\ +` `).ReplaceAllString(quoted, raw \s+)`:
replace every leftmost, greedy occurrence of a backslash followed by one
or more spaces with the three characters backslash, `s`, `+`.  The flag
tracks whether we are still inside the space run of a replaced
occurrence. -/
def replBSAux : Bool → List Char → List Char
  | _, [] => []
  | true, ' ' :: rest => replBSAux true rest
  | _, '\\' :: ' ' :: rest2 => '\\' :: 's' :: '+' :: replBSAux true rest2
  | _, c :: rest => c :: replBSAux false rest

/-- The backslash-space to `\s+` rewriting pass applied to the quoted
keyword in `buildKeywordRegex`. -/
def replBS (l : List Char) : List Char := replBSAux false l

/-! ## Reading the generated pattern fragment back as atoms -/

/-- One atom of a per-keyword pattern fragment: a literal character, a
literal character under a `+` quantifier, or `\s+`. -/
inductive Atom where
  | lit (c : Char)
  | litPlus (c : Char)
  | wsPlus
deriving DecidableEq, Repr

/-- Reading the pattern fragment produced by `QuoteMeta` plus the
backslash-space pass with regular expression syntax.  In such fragments
a backslash always escapes the following character, `\s+` only arises
from the rewriting pass, and a bare `+` quantifies the preceding
one-character atom. -/
def lexFrag : List Char → List Atom
  | [] => []
  | '\\' :: 's' :: '+' :: rest => .wsPlus :: lexFrag rest
  | '\\' :: c :: '+' :: rest => .litPlus c :: lexFrag rest
  | '\\' :: c :: rest => .lit c :: lexFrag rest
  | c :: '+' :: rest => .litPlus c :: lexFrag rest
  | c :: rest => .lit c :: lexFrag rest

/-! ## Semantics of the generated regular expression -/

/-- One alternative of the generated alternation: the keyword's atoms,
and whether the open suffix class `[\p{L}\p{N}_]*` follows it (that is,
the keyword is not listed in `no_suffix`). -/
structure Alt where
  atoms : List Atom
  allowSuffix : Bool
deriving DecidableEq, Repr

/-- All remainders of the text after the atom list has consumed a prefix
of it (full backtracking semantics of concatenation and `+`). -/
def matchAtoms : List Atom → List Char → List (List Char)
  | [], t => [t]
  | .lit _ :: _, [] => []
  | .lit c :: as, x :: t => if ciEq c x then matchAtoms as t else []
  | .litPlus _ :: _, [] => []
  | .litPlus c :: as, x :: t =>
      if ciEq c x then matchAtoms as t ++ matchAtoms (.litPlus c :: as) t else []
  | .wsPlus :: _, [] => []
  | .wsPlus :: as, x :: t =>
      if isGoSpace x then matchAtoms as t ++ matchAtoms (.wsPlus :: as) t else []

/-- All remainders after the suffix class `[\p{L}\p{N}_]*` has consumed
zero or more word characters. -/
def suffixRems : List Char → List (List Char)
  | [] => [[]]
  | x :: t => (x :: t) :: (if isWordChar x then suffixRems t else [])

/-- All remainders after one alternative (atoms, then the suffix class if
allowed) has consumed a prefix of the text. -/
def altRems (a : Alt) (t : List Char) : List (List Char) :=
  let ks := matchAtoms a.atoms t
  if a.allowSuffix then ks.flatMap suffixRems else ks

/-- The right boundary assertion `(?:$|[^\p{L}\p{N}_])`: end of text or a
non-word character. -/
def rightOk : List Char → Bool
  | [] => true
  | c :: _ => !isWordChar c

/-- The left boundary assertion `(?:^|[^\p{L}\p{N}_])`: start of text or
a non-word character immediately before the match position. -/
def leftOk : Option Char → Bool
  | none => true
  | some c => !isWordChar c

/-- Does some alternative match at the current position with a legal
right boundary? -/
def matchesAt (alts : List Alt) (t : List Char) : Bool :=
  alts.any fun a => (altRems a t).any rightOk

/-- Scan of the whole text: try every position whose left boundary
assertion holds (`prev` is the character before the current position,
`none` at the start of the text). -/
def matcherScan (alts : List Alt) : Option Char → List Char → Bool
  | prev, [] => leftOk prev && matchesAt alts []
  | prev, x :: rest =>
      (leftOk prev && matchesAt alts (x :: rest)) || matcherScan alts (some x) rest

/-- Classification of a text by the compiled matcher: the Boolean
behaviour of `findKeyword(text, re) != ""` — the generated pattern has a
match whose alternation group is non-empty. -/
def matcherMatches (alts : List Alt) (text : String) : Bool :=
  matcherScan alts none text.toList

/-! ## `buildKeywordRegex` -/

/-- Compilation of one configured keyword inside `buildKeywordRegex`:
trim it, discard it if blank, otherwise quote it, run the
backslash-space pass, and attach the suffix class unless its lowercased
trimmed text is in the `no_suffix` set. -/
def compileWord (noSuffixKeys : List (List Char)) (w : String) : Option Alt :=
  let wt := trimChars w.toList
  if wt.isEmpty then none
  else some { atoms := lexFrag (replBS (quoteMetaList wt)),
              allowSuffix := !(noSuffixKeys.contains (lowerChars wt)) }

/-- Model of `buildKeywordRegex`: the list of alternatives of the
generated alternation, in configuration order. -/
def buildKeywordRegex (words noSuffix : List String) : List Alt :=
  words.filterMap (compileWord (noSuffix.map fun s => lowerChars (trimChars s.toList)))

/-! ## `loadConfig` validation -/

/-- The keyword validation in `loadConfig`: the process aborts
(`log.Fatal`) exactly when the configured keyword list has length
zero. -/
def loadConfigRejects (keywords : List String) : Bool := keywords.length == 0

/-! ## Time and day-count arithmetic -/

def nsPerSecond : Int := 1000000000

def nsPerHour : Int := 3600 * nsPerSecond

def nsPerDay : Int := 24 * nsPerHour

/-- The cooldown window `2 * time.Hour` in nanoseconds. -/
def cooldownNs : Int := 2 * nsPerHour

/-- Go's `int(f)` conversion on an exact rational: truncation toward
zero. -/
def truncQ (q : ℚ) : Int := if 0 ≤ q then ⌊q⌋ else ⌈q⌉

/-- Model of `int(d.Hours() / 24)` for a `time.Duration` of `d`
nanoseconds, in exact arithmetic: `Hours()` divides the nanosecond count
by 3.6e12, the result is divided by 24, and `int(...)` truncates toward
zero. -/
def daysShown (d : Int) : Int := truncQ ((d : ℚ) / (nsPerHour : ℚ) / 24)

/-! ## Calendar formatting (`time.Time.Format`) -/

/-- The decimal digit character of `n % 10`. -/
def digitChar (n : Nat) : Char := Char.ofNat (48 + n % 10)

/-- Two-digit zero-padded decimal, as written by the `02`/`01`/`15`/
`04`/`05` components of Go time layouts (their values are below 100 by
construction). -/
def pad2Chars (n : Nat) : List Char := [digitChar (n / 10), digitChar n]

/-- Four-digit zero-padded decimal, as written by the `2006` layout
component. -/
def pad4Chars (n : Nat) : List Char :=
  [digitChar (n / 1000), digitChar (n / 100), digitChar (n / 10), digitChar n]

/-- Civil date from a day number relative to 1970-01-01 (the standard
era-based conversion used to model Go's proleptic Gregorian calendar):
returns (year, month, day). -/
def civilFromDays (z0 : Int) : Int × Nat × Nat :=
  let z := z0 + 719468
  let era : Int := z.ediv 146097
  let doe : Nat := (z.emod 146097).toNat
  let yoe : Nat := (doe - doe / 1460 + doe / 36524 - doe / 146096) / 365
  let y : Int := (yoe : Int) + era * 400
  let doy : Nat := doe - (365 * yoe + yoe / 4 - yoe / 100)
  let mp : Nat := (5 * doy + 2) / 153
  let d : Nat := doy - (153 * mp + 2) / 5 + 1
  let m : Nat := if mp < 10 then mp + 3 else mp - 9
  (if m ≤ 2 then y + 1 else y, m, d)

/-- A wall-clock instant at second precision together with its zone
offset, the information carried by the textual encodings the program
reads and writes.  The model fixes the zone to UTC (offset 0) when an
instant is derived from a nanosecond count. -/
structure DateTime where
  year : Nat
  month : Nat
  day : Nat
  hour : Nat
  minute : Nat
  second : Nat
  offsetMinutes : Int
deriving DecidableEq, Repr

/-- Wall-clock fields (UTC) of an instant given as nanoseconds since the
epoch. -/
def dateTimeOfNs (ns : Int) : DateTime :=
  let secs := ns.ediv nsPerSecond
  let days := secs.ediv 86400
  let sod := (secs.emod 86400).toNat
  let c := civilFromDays days
  { year := c.1.toNat, month := c.2.1, day := c.2.2,
    hour := sod / 3600, minute := sod / 60 % 60, second := sod % 60,
    offsetMinutes := 0 }

/-- Model of `t.Format` with layout `02.01.2006 15:04:05` for the
instant `ns` nanoseconds after the epoch. -/
def formatNs (ns : Int) : String :=
  let t := dateTimeOfNs ns
  ⟨pad2Chars t.day ++ '.' :: pad2Chars t.month ++ '.' :: pad4Chars t.year ++
   ' ' :: pad2Chars t.hour ++ ':' :: pad2Chars t.minute ++ ':' :: pad2Chars t.second⟩

/-! ## RFC 3339 encoding of the persisted timestamp -/

/-- The zone part of the RFC 3339 encoding: `Z` for offset zero,
otherwise a signed `hh:mm` offset. -/
def offsetChars (m : Int) : List Char :=
  if m = 0 then ['Z']
  else (if 0 < m then '+' else '-') ::
    (pad2Chars (m.natAbs / 60) ++ ':' :: pad2Chars (m.natAbs % 60))

/-- The RFC 3339 encoding of a wall-clock instant, as written for the
`time.Time` field by `json.Marshal` (sub-second digits, absent at second
precision, are not modelled). -/
def rfc3339Chars (t : DateTime) : List Char :=
  pad4Chars t.year ++ '-' :: pad2Chars t.month ++ '-' :: pad2Chars t.day ++
  'T' :: pad2Chars t.hour ++ ':' :: pad2Chars t.minute ++ ':' :: pad2Chars t.second ++
  offsetChars t.offsetMinutes

/-- Numeric value of a decimal digit character. -/
def digitVal (c : Char) : Option Nat :=
  if c.isDigit then some (c.toNat - 48) else none

/-- Read a two-digit decimal number. -/
def parse2 : List Char → Option (Nat × List Char)
  | a :: b :: rest => do
      let x ← digitVal a
      let y ← digitVal b
      pure (10 * x + y, rest)
  | _ => none

/-- Read a four-digit decimal number. -/
def parse4 : List Char → Option (Nat × List Char)
  | a :: b :: c :: d :: rest => do
      let x ← digitVal a
      let y ← digitVal b
      let z ← digitVal c
      let w ← digitVal d
      pure (1000 * x + 100 * y + 10 * z + w, rest)
  | _ => none

/-- Require a specific next character. -/
def expectChar (c : Char) : List Char → Option (List Char)
  | x :: rest => if x == c then some rest else none
  | [] => none

/-- Read the RFC 3339 zone part. -/
def parseOffset : List Char → Option (Int × List Char)
  | 'Z' :: rest => some (0, rest)
  | '+' :: rest => do
      let (h, r1) ← parse2 rest
      let r2 ← expectChar ':' r1
      let (m, r3) ← parse2 r2
      pure (((h * 60 + m : Nat) : Int), r3)
  | '-' :: rest => do
      let (h, r1) ← parse2 rest
      let r2 ← expectChar ':' r1
      let (m, r3) ← parse2 r2
      pure (-((h * 60 + m : Nat) : Int), r3)
  | _ => none

/-- Read an RFC 3339 instant at second precision. -/
def parseRFC3339 (cs : List Char) : Option (DateTime × List Char) := do
  let (y, r1) ← parse4 cs
  let r2 ← expectChar '-' r1
  let (mo, r3) ← parse2 r2
  let r4 ← expectChar '-' r3
  let (d, r5) ← parse2 r4
  let r6 ← expectChar 'T' r5
  let (h, r7) ← parse2 r6
  let r8 ← expectChar ':' r7
  let (mi, r9) ← parse2 r8
  let r10 ← expectChar ':' r9
  let (s, r11) ← parse2 r10
  let (off, r12) ← parseOffset r11
  pure ({ year := y, month := mo, day := d, hour := h, minute := mi,
          second := s, offsetMinutes := off }, r12)

/-! ## The persisted `data.json` file (`saveStorage` / `loadStorage`) -/

/-- The characters `json.MarshalIndent(s, "", "  ")` writes before the
timestamp string for the `Storage` struct. -/
def storageHead : List Char := "\x7b\n  \"last_mention\": \"".toList

/-- The characters written after the timestamp string. -/
def storageTail : List Char := "\"\n\x7d".toList

/-- Model of the file contents written by `saveStorage`: the indented
JSON object whose single `last_mention` field is the RFC 3339 instant. -/
def saveStorage (t : DateTime) : String :=
  ⟨storageHead ++ rfc3339Chars t ++ storageTail⟩

/-- Consume an expected leading character sequence. -/
def dropLeading : List Char → List Char → Option (List Char)
  | [], t => some t
  | p :: ps, x :: t => if x == p then dropLeading ps t else none
  | _ :: _, [] => none

/-- Decoding of a `data.json` file of the shape `saveStorage` writes:
the timestamp parse performed by `json.Unmarshal` into the `time.Time`
field. -/
def decodeStorage (s : String) : Option DateTime := do
  let r1 ← dropLeading storageHead s.toList
  let (t, r2) ← parseRFC3339 r1
  if r2 == storageTail then some t else none

/-- The zero `time.Time` (`time.Time\x7b\x7d`), whose wall clock reads
0001-01-01 00:00:00 UTC; `IsZero` distinguishes it as "never
recorded". -/
def zeroDateTime : DateTime :=
  { year := 1, month := 1, day := 1, hour := 0, minute := 0, second := 0,
    offsetMinutes := 0 }

/-- Model of `loadStorage` on a present file: parse the record, fall
back to the zero time ("never recorded") when the contents do not
parse. -/
def loadStorage (s : String) : DateTime :=
  (decodeStorage s).getD zeroDateTime

/-! ## The message handlers -/

/-- The `/days` reply.  The stored record is `none` when
`storage.LastMention.IsZero()`; otherwise it is the stored instant in
nanoseconds since the epoch. -/
def daysHandler (topic : String) (st : Option Int) (now : Int) : String :=
  match st with
  | none => "Ещё ни разу не упоминали \x27" ++ topic ++ "\x27."
  | some t =>
      toString (daysShown (now - t)) ++ " дней без упоминания " ++ topic ++
      ".\nПоследнее упоминание было: " ++ formatNs t

/-- The observable outcome of the `/reset` handler: the new in-memory
record, the file system after `saveStorage`, the two summary components
it computes, and the reply it sends. -/
structure ResetResult where
  newStorage : Option Int
  fsAfter : Option String
  prevText : String
  daysWas : Int
  sent : String
deriving DecidableEq, Repr

/-- The `/reset` reply text. -/
def resetText (topic nowText : String) (daysWas : Int) (prevText : String) : String :=
  "Кто-то что-то написал про " ++ topic ++ " " ++ nowText ++
  " 💀💀💀 запомнили, мы продержались " ++ toString daysWas ++
  " дней.\nПоследнее упоминание до этого было: " ++ prevText

/-- Model of the `/reset` handler.  `writeOk` is the oracle for the
outcome of `os.WriteFile` inside `saveStorage` (which logs and returns
on failure); `fs` is the prior file contents. -/
def resetHandler (topic : String) (st : Option Int) (fs : Option String)
    (now : Int) (writeOk : Bool) : ResetResult :=
  let prevText := match st with
    | none => "никогда"
    | some t => formatNs t
  let daysWas : Int := match st with
    | none => 0
    | some t => daysShown (now - t)
  { newStorage := some now,
    fsAfter := if writeOk then some (saveStorage (dateTimeOfNs now)) else fs,
    prevText := prevText,
    daysWas := daysWas,
    sent := resetText topic (formatNs now) daysWas prevText }

/-- The decision of the `OnText` handler on a classified keyword match,
under the spec's name `evaluateTrigger`: with a present record less than
the cooldown window old the mention is ignored, otherwise a
soft-trigger notice carrying the matched span is emitted. -/
inductive TriggerOutcome where
  | suppressed
  | notice (span : String)
deriving DecidableEq, Repr

/-- The cooldown gate of the `OnText` handler:
`!storage.LastMention.IsZero() && time.Since(storage.LastMention) < 2*time.Hour`
suppresses the notice. -/
def evaluateTrigger (lastMention : Option Int) (now : Int) (span : String) :
    TriggerOutcome :=
  match lastMention with
  | none => .notice span
  | some t => if now - t < cooldownNs then .suppressed else .notice span

/-- The soft-trigger notice text. -/
def noticeText (topic found : String) : String :=
  "Кто-то сказал «" ++ found ++ "»?\nСбросить счётчик дней без " ++ topic ++
  "? Используйте /reset для подтверждения."

/-- The outbound message of the `OnText` handler: nothing when no
keyword matched or the cooldown gate suppressed the mention, otherwise
the notice. -/
def onTextSend (topic found : String) (st : Option Int) (now : Int) :
    Option String :=
  if found == "" then none
  else match evaluateTrigger st now found with
    | .suppressed => none
    | .notice sp => some (noticeText topic sp)

end DaysWithout

namespace DaysWithout

/-! ## Helper lemmas -/

theorem cooldownNs_eq : cooldownNs = 7200000000000 := by
  norm_num [cooldownNs, nsPerHour, nsPerSecond]

theorem matcherScan_empty (prev : Option Char) (t : List Char) :
    matcherScan [] prev t = false := by
  induction t generalizing prev with
  | nil => simp [matcherScan, matchesAt]
  | cons x rest ih => simp [matcherScan, matchesAt, ih]

/-- Every successful classification exhibits a match position whose left
boundary assertion holds: the text splits as `pre ++ rest` where `pre`
is empty or ends in a non-word character, and some alternative matches
at the start of `rest`. -/
theorem matcherScan_boundary (alts : List Alt) (prev : Option Char) (t : List Char)
    (h : matcherScan alts prev t = true) :
    ∃ pre rest, t = pre ++ rest ∧
      ((pre = [] ∧ leftOk prev = true) ∨
        ∃ c pre0, pre = pre0 ++ [c] ∧ isWordChar c = false) ∧
      matchesAt alts rest = true := by
  induction t generalizing prev with
  | nil =>
    rw [matcherScan, Bool.and_eq_true] at h
    exact ⟨[], [], rfl, Or.inl ⟨rfl, h.1⟩, h.2⟩
  | cons x rest ih =>
    rw [matcherScan, Bool.or_eq_true] at h
    rcases h with h | h
    · rw [Bool.and_eq_true] at h
      exact ⟨[], x :: rest, rfl, Or.inl ⟨rfl, h.1⟩, h.2⟩
    · obtain ⟨pre, r, heq, hb, hm⟩ := ih (some x) h
      refine ⟨x :: pre, r, by simp [heq], ?_, hm⟩
      rcases hb with ⟨hpre, hok⟩ | ⟨c, pre0, hpre, hw⟩
      · subst hpre
        refine Or.inr ⟨x, [], rfl, ?_⟩
        simpa [leftOk] using hok
      · subst hpre
        exact Or.inr ⟨c, x :: pre0, rfl, hw⟩

theorem goSpecial_ne_space {c : Char} (h : goSpecial c = true) : c ≠ ' ' := by
  intro he
  subst he
  simp [goSpecial] at h

theorem replBSAux_false_cons {c : Char} (L : List Char) (h : ¬ c = '\\') :
    replBSAux false (c :: L) = c :: replBSAux false L := by
  rw [replBSAux.eq_def]
  split <;> simp_all

theorem replBSAux_false_bs {d : Char} (L : List Char) (h : ¬ d = ' ') :
    replBSAux false ('\\' :: d :: L) = '\\' :: replBSAux false (d :: L) := by
  rw [replBSAux.eq_def]
  split <;> simp_all [eq_comm]

/-- On a keyword containing no backslash — every keyword that is not
itself written with regex escapes, in particular every plain multi-word
keyword — the backslash-space rewriting pass of `buildKeywordRegex` is
the identity: `regexp.QuoteMeta` never escapes a space, so the pattern
`\\ +` it rewrites can only occur if the original keyword contained a
backslash. -/
theorem replBS_quoteMeta (w : List Char) (h : '\\' ∉ w) :
    replBS (quoteMetaList w) = quoteMetaList w := by
  unfold replBS
  induction w with
  | nil => rfl
  | cons c rest ih =>
    have hc : ¬ c = '\\' := fun hcc => h (hcc ▸ List.mem_cons_self c rest)
    have hr : '\\' ∉ rest := fun hm => h (List.mem_cons_of_mem c hm)
    by_cases hs : goSpecial c = true
    · rw [quoteMetaList, if_pos hs, List.cons_append, List.singleton_append,
        replBSAux_false_bs _ (goSpecial_ne_space hs), replBSAux_false_cons _ hc, ih hr]
    · rw [quoteMetaList, if_neg hs, List.singleton_append,
        replBSAux_false_cons _ hc, ih hr]

/-- For a non-negative duration the exact-arithmetic model of
`int(d.Hours() / 24)` is division of the nanosecond count by the number
of nanoseconds in a day. -/
theorem daysShown_nonneg_eq (d : Int) (h : 0 ≤ d) :
    daysShown d = ((d.toNat / 86400000000000 : Nat) : Int) := by
  have hcast : (d : ℚ) = ((d.toNat : ℕ) : ℚ) := by
    rw [← Int.cast_natCast (R := ℚ), Int.toNat_of_nonneg h]
  have hq : (d : ℚ) / (nsPerHour : ℚ) / 24 =
      ((d.toNat : ℕ) : ℚ) / ((86400000000000 : ℕ) : ℚ) := by
    rw [div_div, hcast]
    norm_num [nsPerHour, nsPerSecond]
  have hpos : 0 ≤ (d : ℚ) / (nsPerHour : ℚ) / 24 := by
    rw [hq]
    positivity
  rw [daysShown, truncQ, if_pos hpos, hq]
  have h1 : ⌊(((d.toNat : ℕ) : ℚ) / ((86400000000000 : ℕ) : ℚ))⌋₊ =
      d.toNat / 86400000000000 :=
    Nat.floor_div_eq_div (α := ℚ) d.toNat 86400000000000
  have h2 : (0 : ℚ) ≤ ((d.toNat : ℕ) : ℚ) / ((86400000000000 : ℕ) : ℚ) := by
    positivity
  rw [← Int.floor_toNat] at h1
  rw [← h1, Int.toNat_of_nonneg (Int.floor_nonneg.2 h2)]

theorem digitVal_ofNat : ∀ k < 10, digitVal (Char.ofNat (48 + k)) = some k := by
  decide

theorem digitVal_digitChar (n : Nat) : digitVal (digitChar n) = some (n % 10) :=
  digitVal_ofNat (n % 10) (Nat.mod_lt n (by norm_num))

theorem parse2_pad2 (n : Nat) (rest : List Char) (h : n < 100) :
    parse2 (pad2Chars n ++ rest) = some (n, rest) := by
  simp [pad2Chars, parse2, digitVal_digitChar, Option.bind]
  omega

theorem parse4_pad4 (n : Nat) (rest : List Char) (h : n < 10000) :
    parse4 (pad4Chars n ++ rest) = some (n, rest) := by
  simp [pad4Chars, parse4, digitVal_digitChar, Option.bind]
  omega

theorem expectChar_cons (c : Char) (rest : List Char) :
    expectChar c (c :: rest) = some rest := by
  simp [expectChar]

theorem parseOffset_offsetChars (m : Int) (rest : List Char) (h : m.natAbs < 6000) :
    parseOffset (offsetChars m ++ rest) = some (m, rest) := by
  by_cases h0 : m = 0
  · subst h0
    simp [offsetChars, parseOffset]
  · have hh : m.natAbs / 60 < 100 := by omega
    have hm : m.natAbs % 60 < 100 := by omega
    by_cases hpos : 0 < m
    · rw [offsetChars, if_neg h0, if_pos hpos]
      simp only [List.cons_append, List.append_assoc, List.cons_append]
      rw [parseOffset]
      simp only [parse2_pad2 _ _ hh, expectChar_cons, parse2_pad2 _ _ hm,
        Option.bind_eq_bind, Option.some_bind, Option.some.injEq, Prod.mk.injEq]
      have hv : m.natAbs / 60 * 60 + m.natAbs % 60 = m.natAbs := by omega
      rw [hv]
      have hsgn : ((m.natAbs : ℕ) : ℤ) = m := by omega
      rw [hsgn]
      rfl
    · rw [offsetChars, if_neg h0, if_neg hpos]
      simp only [List.cons_append, List.append_assoc, List.cons_append]
      rw [parseOffset]
      simp only [parse2_pad2 _ _ hh, expectChar_cons, parse2_pad2 _ _ hm,
        Option.bind_eq_bind, Option.some_bind, Option.some.injEq, Prod.mk.injEq]
      have hv : m.natAbs / 60 * 60 + m.natAbs % 60 = m.natAbs := by omega
      rw [hv]
      have hsgn : -((m.natAbs : ℕ) : ℤ) = m := by omega
      rw [hsgn]
      rfl

theorem parseRFC3339_rfc (t : DateTime) (rest : List Char)
    (hy : t.year < 10000) (hmo : t.month < 100) (hd : t.day < 100)
    (hh : t.hour < 100) (hmi : t.minute < 100) (hs : t.second < 100)
    (hoff : t.offsetMinutes.natAbs < 6000) :
    parseRFC3339 (rfc3339Chars t ++ rest) = some (t, rest) := by
  rw [rfc3339Chars]
  simp only [List.cons_append, List.append_assoc]
  rw [parseRFC3339]
  simp only [parse4_pad4 _ _ hy, expectChar_cons, parse2_pad2 _ _ hmo,
    parse2_pad2 _ _ hd, parse2_pad2 _ _ hh, parse2_pad2 _ _ hmi,
    parse2_pad2 _ _ hs, parseOffset_offsetChars _ _ hoff,
    Option.bind_eq_bind, Option.some_bind]
  rfl

theorem dropLeading_append (p t : List Char) : dropLeading p (p ++ t) = some t := by
  induction p with
  | nil => rfl
  | cons c ps ih => simp [dropLeading, ih]

theorem decode_save (t : DateTime)
    (hy : t.year < 10000) (hmo : t.month < 100) (hd : t.day < 100)
    (hh : t.hour < 100) (hmi : t.minute < 100) (hs : t.second < 100)
    (hoff : t.offsetMinutes.natAbs < 6000) :
    decodeStorage (saveStorage t) = some t := by
  rw [decodeStorage, saveStorage]
  show (do
    let r1 ← dropLeading storageHead (storageHead ++ rfc3339Chars t ++ storageTail)
    let (u, r2) ← parseRFC3339 r1
    if r2 == storageTail then some u else none) = some t
  rw [List.append_assoc, dropLeading_append]
  simp only [Option.bind_eq_bind, Option.some_bind,
    parseRFC3339_rfc t storageTail hy hmo hd hh hmi hs hoff]
  simp

end DaysWithout

namespace DaysWithout

/-! ## Claim theorems -/

/-- Claim C1: for every compiled keyword set and every input text, a
classification success always exhibits a match starting at a legal left
boundary (start of text or right after a non-word character), so a
keyword occurring only as a strict substring of a larger alphanumeric
token never classifies as a match; concretely, keyword "apple" does not
match inside "pineapple pie", matches as its own token, matches
"applesauce" when suffixes are allowed, and with suffix-allow = false
matches only the exact token, so "applesauce" does not match. -/
theorem claim_c1 :
    (∀ (alts : List Alt) (text : String), matcherMatches alts text = true →
      ∃ pre rest, text.toList = pre ++ rest ∧
        (pre = [] ∨ ∃ c pre0, pre = pre0 ++ [c] ∧ isWordChar c = false) ∧
        matchesAt alts rest = true)
    ∧ matcherMatches (buildKeywordRegex ["apple"] []) "pineapple pie" = false
    ∧ matcherMatches (buildKeywordRegex ["apple"] []) "I ate an apple" = true
    ∧ matcherMatches (buildKeywordRegex ["apple"] []) "applesauce" = true
    ∧ matcherMatches (buildKeywordRegex ["apple"] ["apple"]) "applesauce" = false
    ∧ matcherMatches (buildKeywordRegex ["apple"] ["apple"]) "I ate an apple" = true := by
  refine ⟨?_, by decide, by decide, by decide, by decide, by decide⟩
  intro alts text h
  obtain ⟨pre, rest, heq, hb, hm⟩ := matcherScan_boundary alts none text.toList h
  refine ⟨pre, rest, heq, ?_, hm⟩
  rcases hb with ⟨hpre, _⟩ | hend
  · exact Or.inl hpre
  · exact Or.inr hend

/-- Claim C2: for every present record, suppression of a keyword match
holds exactly when `now - lastMention` is strictly below the two-hour
cooldown window; at exactly the window the outcome is a soft-trigger
notice (and a message is sent), one nanosecond inside the window the
outcome is Suppressed (and no message is sent). -/
theorem claim_c2 : ∀ (t now : Int) (span topic : String),
    (evaluateTrigger (some t) now span = .suppressed ↔ now - t < cooldownNs)
    ∧ evaluateTrigger (some t) (t + cooldownNs) span = .notice span
    ∧ evaluateTrigger (some t) (t + cooldownNs - 1) span = .suppressed
    ∧ onTextSend topic "apple" (some t) (t + cooldownNs) = some (noticeText topic "apple")
    ∧ onTextSend topic "apple" (some t) (t + cooldownNs - 1) = none := by
  intro t now span topic
  refine ⟨?_, ?_, ?_, ?_, ?_⟩
  · simp only [evaluateTrigger]
    split_ifs with h <;> simp [h]
  · simp only [evaluateTrigger, cooldownNs_eq]
    rw [if_neg (by omega)]
  · simp only [evaluateTrigger, cooldownNs_eq]
    rw [if_pos (by omega)]
  · have he : evaluateTrigger (some t) (t + cooldownNs) "apple" = .notice "apple" := by
      simp only [evaluateTrigger, cooldownNs_eq]
      rw [if_neg (by omega)]
    simp [onTextSend, he]
  · have he : evaluateTrigger (some t) (t + cooldownNs - 1) "apple" = .suppressed := by
      simp only [evaluateTrigger, cooldownNs_eq]
      rw [if_pos (by omega)]
    simp [onTextSend, he]

/-- Claim C3 (evaluation at the failing input): the multi-word keyword
"days without" matches only its exact literal spacing — the two-space
and tab variants do not classify as matches — because the
backslash-space to `\s+` rewriting pass is the identity on every
backslash-free quoted keyword (`regexp.QuoteMeta` does not escape
spaces), so the compiled pattern keeps the single literal space. -/
theorem claim_c3 :
    matcherMatches (buildKeywordRegex ["days without"] []) "no days without x" = true
    ∧ matcherMatches (buildKeywordRegex ["days without"] []) "no days  without x" = false
    ∧ matcherMatches (buildKeywordRegex ["days without"] []) "no days\twithout x" = false
    ∧ (∀ w : List Char, '\\' ∉ w → replBS (quoteMetaList w) = quoteMetaList w) := by
  exact ⟨by decide, by decide, by decide, replBS_quoteMeta⟩

/-- Claim C4 counterexample: with a failed storage write (`writeOk =
false`) the `/reset` handler at a concrete state sends exactly the same
confirmation message as with a successful write, still installs the new
timestamp in memory, and leaves the file unchanged — the failure is not
surfaced to the caller in any way. -/
theorem claim_c4_counterexample :
    (resetHandler "Fruits" (some 0) (some (saveStorage (dateTimeOfNs 0))) 7200000000000 false).sent
      = (resetHandler "Fruits" (some 0) (some (saveStorage (dateTimeOfNs 0))) 7200000000000 true).sent
    ∧ (resetHandler "Fruits" (some 0) (some (saveStorage (dateTimeOfNs 0))) 7200000000000 false).newStorage
      = some 7200000000000
    ∧ (resetHandler "Fruits" (some 0) (some (saveStorage (dateTimeOfNs 0))) 7200000000000 false).fsAfter
      = some (saveStorage (dateTimeOfNs 0)) :=
  ⟨rfl, rfl, rfl⟩

/-- Claim C4 as amended: on a storage write failure during a confirmed
reset the error is only logged — for every state the handler still
commits the new record in memory, leaves the file unchanged, and sends
the very message it sends on success. -/
theorem claim_c4 : ∀ (topic : String) (st : Option Int) (fs : Option String) (now : Int),
    (resetHandler topic st fs now false).newStorage = some now
    ∧ (resetHandler topic st fs now false).fsAfter = fs
    ∧ (resetHandler topic st fs now false).sent = (resetHandler topic st fs now true).sent := by
  intro topic st fs now
  exact ⟨rfl, rfl, rfl⟩

/-- Claim C5 counterexample: the non-empty all-blank keyword list
`[" "]` is not rejected by the `loadConfig` validation, and
`buildKeywordRegex` still produces a (degenerate, empty-alternation)
matcher for it — construction does not fail. -/
theorem claim_c5_counterexample :
    loadConfigRejects [" "] = false ∧ buildKeywordRegex [" "] [] = [] :=
  ⟨rfl, rfl⟩

/-- Claim C5 as amended: construction fails exactly when the keyword
list is literally empty; a non-empty list whose entries are all blank is
accepted and compiles to a matcher with an empty alternation that
classifies no text as a match. -/
theorem claim_c5 :
    (∀ ks : List String, loadConfigRejects ks = true ↔ ks = [])
    ∧ loadConfigRejects [" "] = false
    ∧ (∀ text : String, matcherMatches (buildKeywordRegex [" "] []) text = false) := by
  refine ⟨?_, rfl, ?_⟩
  · intro ks
    cases ks <;> simp [loadConfigRejects]
  · intro text
    have h : buildKeywordRegex [" "] [] = [] := rfl
    rw [matcherMatches, h]
    exact matcherScan_empty none text.toList

/-- Claim C6: for every record state — including a record strictly
inside the cooldown window, as the explicit one-nanosecond-old instance
shows — the `/reset` handler sets the stored instant to the current time
and persists it when the write succeeds; the cooldown gate plays no part
in the handler. -/
theorem claim_c6 : ∀ (topic : String) (st : Option Int) (fs : Option String)
    (now : Int) (writeOk : Bool),
    (resetHandler topic st fs now writeOk).newStorage = some now
    ∧ (resetHandler topic st fs now writeOk).fsAfter =
        (if writeOk then some (saveStorage (dateTimeOfNs now)) else fs)
    ∧ (resetHandler topic (some (now - 1)) fs now writeOk).newStorage = some now := by
  intro topic st fs now writeOk
  exact ⟨rfl, rfl, rfl⟩

/-- Claim C7 counterexample: resetting with an absent record reports the
previous instant as "никогда" but reports `daysWas = 0`, the very same
ordinary day count a present record with zero elapsed time produces —
not a distinguishable absent/sentinel value. -/
theorem claim_c7_counterexample :
    (resetHandler "Fruits" none none 0 true).prevText = "никогда"
    ∧ (resetHandler "Fruits" none none 0 true).daysWas = 0
    ∧ (resetHandler "Fruits" (some 0) none 0 true).daysWas = 0 := by
  refine ⟨rfl, rfl, ?_⟩
  show daysShown (0 - 0) = 0
  norm_num [daysShown, truncQ]

/-- Claim C7 as amended: a confirm-reset with an absent record reports
the previous instant as the explicit "никогда" marker, but reports
`daysWas` as the ordinary number 0, identical to the day count of a
reset whose previous mention was the same instant. -/
theorem claim_c7 : ∀ (topic : String) (fs : Option String) (now : Int) (wk : Bool),
    (resetHandler topic none fs now wk).prevText = "никогда"
    ∧ (resetHandler topic none fs now wk).daysWas = 0
    ∧ (resetHandler topic (some now) fs now wk).daysWas = 0 := by
  intro topic fs now wk
  refine ⟨rfl, rfl, ?_⟩
  show daysShown (now - now) = 0
  rw [sub_self]
  simpa using daysShown_nonneg_eq 0 le_rfl

/-- Claim C8: for every record whose fields are in the encoder's ranges,
writing the storage file and reading it back yields the identical
second-precision timestamp (shown both in general and at a concrete
instant with a non-UTC zone offset). -/
theorem claim_c8 :
    (∀ t : DateTime, t.year < 10000 → t.month < 100 → t.day < 100 →
      t.hour < 100 → t.minute < 100 → t.second < 100 →
      t.offsetMinutes.natAbs < 6000 →
      loadStorage (saveStorage t) = t)
    ∧ decodeStorage (saveStorage ⟨2024, 5, 6, 7, 8, 9, 180⟩) =
        some ⟨2024, 5, 6, 7, 8, 9, 180⟩ := by
  constructor
  · intro t hy hmo hd hh hmi hs hoff
    rw [loadStorage, decode_save t hy hmo hd hh hmi hs hoff]
    rfl
  · exact decode_save _ (by norm_num) (by norm_num) (by norm_num) (by norm_num)
      (by norm_num) (by norm_num) (by norm_num)

/-- Claim C9: for every non-negative elapsed duration the reported day
count is the exact truncation of the elapsed time — division of the
nanosecond count by the number of nanoseconds in a day, never a rounded
value (for 1.5 days the count is 1, not 2) — and a confirm-reset
followed immediately by a status query reports 0 elapsed days. -/
theorem claim_c9 :
    (∀ d : Int, 0 ≤ d → daysShown d = ((d.toNat / 86400000000000 : Nat) : Int))
    ∧ (∀ (topic : String) (st : Option Int) (fs : Option String) (now : Int) (wk : Bool),
        daysShown (now - ((resetHandler topic st fs now wk).newStorage.getD 0)) = 0)
    ∧ daysShown 129600000000000 = 1 := by
  refine ⟨daysShown_nonneg_eq, ?_, ?_⟩
  · intro topic st fs now wk
    show daysShown (now - now) = 0
    rw [sub_self]
    simpa using daysShown_nonneg_eq 0 le_rfl
  · have h := daysShown_nonneg_eq 129600000000000 (by norm_num)
    rw [h]
    norm_num

/-- Claim C10: with a present record whose instant lies strictly in the
future of `now`, every keyword match is suppressed and the `OnText`
handler sends no message: the negative elapsed duration is below the
cooldown window. -/
theorem claim_c10 (t now : Int) (span topic : String) (h : now < t) :
    evaluateTrigger (some t) now span = .suppressed ∧
    onTextSend topic span (some t) now = none := by
  have hlt : now - t < cooldownNs := by
    rw [cooldownNs_eq]
    omega
  constructor
  · simp only [evaluateTrigger]
    rw [if_pos hlt]
  · simp only [onTextSend, evaluateTrigger]
    rw [if_pos hlt]
    split <;> rfl

/-- Witness for claim C10 at `lastMention = 1`, `now = 0`. -/
theorem claim_c10_witness :
    (0 : Int) < 1
    ∧ (evaluateTrigger (some 1) 0 "apple" = .suppressed ∧
        onTextSend "Fruits" "apple" (some 1) 0 = none) :=
  ⟨by norm_num, claim_c10 1 0 "apple" "Fruits" (by norm_num)⟩

end DaysWithout
